import Mathlib

/-!
Verification development for the turboflakes-backend indexing and ranking
service.  The Rust sources under `src/` are shallowly embedded: pure helper
functions become Lean functions, the Redis cache becomes an explicit state
structure, chain storage queries become an environment record, and the
`async` sync passes become state-transition functions.  Machine integers
(`u32`, `u128`) are modelled as `Nat`; where wrap-around matters (the `u32`
sum inside `stats::mean`, `u32` subtraction) an explicit `% 2 ^ 32` is used.
IEEE floats (`f32`/`f64`) are modelled as rationals; a division whose
denominator is zero, which in IEEE produces a non-finite value (NaN or an
infinity), is modelled by `Option.none`.
-/

namespace Turboflakes

/-! ### Statistics kernel — `src/sync/stats.rs` -/

namespace stats

/-- `mean` from stats.rs.  The Rust code sums the `u32` entries into a `u32`
(`let sum: u32 = list.iter().sum();`) — in release builds this wraps modulo
`2 ^ 32`, which the embedding makes explicit — and then divides by the length
as `f64`, modelled as an exact rational. -/
def mean (list : List Nat) : ℚ :=
  if list.length = 0 then 0
  else ((list.sum % 2 ^ 32 : ℕ) : ℚ) / (list.length : ℚ)

/-- `median` from stats.rs: sort ascending, return the element at index
`len / 2`; `0` on the empty list. -/
def median (list : List Nat) : ℕ :=
  if list.length = 0 then 0
  else (list.mergeSort (fun a b => a ≤ b)).getD (list.length / 2) 0

/-- `min` from stats.rs: `list.iter().min()`, with `None` mapped to `0`. -/
def min (list : List Nat) : ℕ :=
  match list with
  | [] => 0
  | h :: t => t.foldl Nat.min h

/-- `max` from stats.rs: `list.iter().max()`, with `None` mapped to `0`. -/
def max (list : List Nat) : ℕ :=
  match list with
  | [] => 0
  | h :: t => t.foldl Nat.max h

end stats

/-! ### Error domain — `src/errors.rs` -/

/-- `ApiError` from errors.rs (message payloads kept). -/
inductive ApiError
  | BadRequest (msg : String)
  | NotFound (msg : String)
  | InternalServerError (msg : String)
deriving DecidableEq, Repr

/-- `SyncError` from errors.rs (wrapped error values abstracted to strings). -/
inductive SyncError
  | CacheErr (msg : String)
  | SubxtErr (msg : String)
  | Other (msg : String)
deriving DecidableEq, Repr

/-- Decidable equality of `Except` results, used to evaluate handler outcomes
on concrete inputs. -/
instance {ε α : Type} [DecidableEq ε] [DecidableEq α] :
    DecidableEq (Except ε α) := fun a b =>
  match a, b with
  | .error x, .error y =>
    if h : x = y then .isTrue (by rw [h]) else .isFalse (by simp [h])
  | .error _, .ok _ => .isFalse (by simp)
  | .ok _, .error _ => .isFalse (by simp)
  | .ok x, .ok y =>
    if h : x = y then .isTrue (by rw [h]) else .isFalse (by simp [h])

/-! ### Small Redis-shaped helpers

A Redis hash is an association list of field/value strings; a sorted set is a
list of (score, member) pairs.  `ZADD` updates the score in place when the
member is already present, otherwise appends. -/

/-- Model of one Redis hash (`HGETALL` result / `BTreeMap<String, String>`). -/
abbrev RHash := List (String × String)

/-- Field lookup in a hash (`HGET` / `BTreeMap::get`). -/
def hget (h : RHash) (field : String) : Option String :=
  (h.find? (fun p => p.1 == field)).map (·.2)

/-- Insert-or-overwrite of one field (`HSET` / `BTreeMap::insert`). -/
def hset_field (h : RHash) (field value : String) : RHash :=
  if h.any (fun p => p.1 == field) then
    h.map (fun p => if p.1 == field then (field, value) else p)
  else h ++ [(field, value)]

/-- Model of one Redis sorted set: (score, member) pairs. -/
abbrev ZSet := List (ℚ × String)

/-- `ZADD`: update the member's score in place, or append the member. -/
def zadd (z : ZSet) (score : ℚ) (member : String) : ZSet :=
  if z.any (fun e => e.2 == member) then
    z.map (fun e => if e.2 == member then (score, member) else e)
  else z ++ [(score, member)]

/-- Members of a sorted set. -/
def zmembers (z : ZSet) : List String := z.map (·.2)

/-- Decimal digit value of a character, `none` for non-digits. -/
def char_digit (c : Char) : Option ℕ :=
  if 48 ≤ c.toNat ∧ c.toNat ≤ 57 then some (c.toNat - 48) else none

/-- Decimal parse over a character list, failing on any non-digit. -/
def parse_nat_digits : List Char → ℕ → Option ℕ
  | [], acc => some acc
  | c :: rest, acc =>
    match char_digit c with
    | some d => parse_nat_digits rest (acc * 10 + d)
    | none => none

/-- Rust's `String::parse::<uN>().unwrap_or_default()` on decimal text:
empty or non-numeric text defaults to 0. -/
def parse_u (s : String) : ℕ :=
  match s.data with
  | [] => 0
  | cs => (parse_nat_digits cs 0).getD 0

/-- Rust's `String::parse::<bool>().unwrap_or_default()`: only the exact
text "true" parses to `true`. -/
def parse_bool (s : String) : Bool := s == "true"

/-! ### Era read endpoint — `src/handlers/era.rs` -/

/-- `EraResponse` from handlers/era.rs (note: no median field). -/
structure EraResponse where
  era_index : ℕ
  total_reward : ℕ
  total_stake : ℕ
  total_reward_points : ℕ
  min_reward_points : ℕ
  max_reward_points : ℕ
  avg_reward_points : ℕ
deriving DecidableEq, Repr

/-- `From<EraCache> for EraResponse`: parse each field, defaulting to 0. -/
def eraResponseOfCache (data : RHash) : EraResponse :=
  { era_index := parse_u ((hget data "era_index").getD "0")
    total_reward := parse_u ((hget data "total_reward").getD "0")
    total_stake := parse_u ((hget data "total_stake").getD "0")
    total_reward_points := parse_u ((hget data "total_reward_points").getD "0")
    min_reward_points := parse_u ((hget data "min_reward_points").getD "0")
    max_reward_points := parse_u ((hget data "max_reward_points").getD "0")
    avg_reward_points := parse_u ((hget data "avg_reward_points").getD "0") }

/-- `get_era` from handlers/era.rs.  `data` is the `HGETALL` result for the
cache key `{era_index}:era` (the empty list when the key is absent).  The
source inserts `era_index` into the map BEFORE testing `data.len() == 0`,
exactly as mirrored here. -/
def get_era (data : RHash) (era_index : ℕ) : Except ApiError EraResponse :=
  let data := hset_field data "era_index" (toString era_index)
  if data.length = 0 then
    .error (.NotFound ("era index " ++ toString era_index ++ " not available"))
  else
    .ok (eraResponseOfCache data)

/-! ### Leaderboard engine — `src/handlers/validator.rs` -/

/-- `NOMINATORS_OVERSUBSCRIBED_THRESHOLD` from handlers/validator.rs. -/
def NOMINATORS_OVERSUBSCRIBED_THRESHOLD : ℕ := 256

/-- `COMMISSION_PLANCK` from handlers/validator.rs. -/
def COMMISSION_PLANCK : ℕ := 1000000000

/-- `normalize_value` from handlers/validator.rs (f64 modelled as ℚ). -/
def normalize_value (value mn mx : ℚ) : ℚ :=
  if value = 0 ∨ value < mn then 0
  else if value > mx then 1
  else (value - mn) / (mx - mn)

/-- `reverse_normalize_value` from handlers/validator.rs. -/
def reverse_normalize_value (value mn mx : ℚ) : ℚ :=
  1 - normalize_value value mn mx

/-- `normalize_commission` from handlers/validator.rs. -/
def normalize_commission (commission : ℕ) : ℚ :=
  (commission : ℚ) / (COMMISSION_PLANCK : ℚ)

/-- `reverse_normalize_commission` from handlers/validator.rs. -/
def reverse_normalize_commission (commission : ℕ) (mn mx : ℚ) : ℚ :=
  reverse_normalize_value (normalize_commission commission)
    (mn / (COMMISSION_PLANCK : ℚ)) (mx / (COMMISSION_PLANCK : ℚ))

/-- `normalize_flag` from handlers/validator.rs. -/
def normalize_flag (flag : Bool) : ℚ :=
  if flag then 1 else 0

/-- `Interval` from handlers/validator.rs. -/
structure Interval where
  min : ℚ
  max : ℚ
deriving DecidableEq, Repr

/-- `Interval::default()`: both bounds zero. -/
def Interval.default : Interval := ⟨0, 0⟩

/-- `BoardLimits` from handlers/validator.rs: one interval per criterion. -/
structure BoardLimits where
  inclusion_rate : Interval
  commission : Interval
  nominators : Interval
  avg_reward_points : Interval
  reward_staked : Interval
  active : Interval
  own_stake : Interval
  total_stake : Interval
  judgements : Interval
  sub_accounts : Interval
deriving DecidableEq, Repr

/-- `From<&Intervals> for BoardLimits`: take the i-th user interval, default
`0:0` when absent. -/
def boardLimitsOfIntervals (data : List Interval) : BoardLimits :=
  { inclusion_rate := data.getD 0 Interval.default
    commission := data.getD 1 Interval.default
    nominators := data.getD 2 Interval.default
    avg_reward_points := data.getD 3 Interval.default
    reward_staked := data.getD 4 Interval.default
    active := data.getD 5 Interval.default
    own_stake := data.getD 6 Interval.default
    total_stake := data.getD 7 Interval.default
    judgements := data.getD 8 Interval.default
    sub_accounts := data.getD 9 Interval.default }

/-- Properness of a limits record: every criterion interval has
`min < max`. -/
def limits_proper (l : BoardLimits) : Prop :=
  l.inclusion_rate.min < l.inclusion_rate.max ∧
  l.commission.min < l.commission.max ∧
  l.nominators.min < l.nominators.max ∧
  l.avg_reward_points.min < l.avg_reward_points.max ∧
  l.reward_staked.min < l.reward_staked.max ∧
  l.active.min < l.active.max ∧
  l.own_stake.min < l.own_stake.max ∧
  l.total_stake.min < l.total_stake.max ∧
  l.judgements.min < l.judgements.max ∧
  l.sub_accounts.min < l.sub_accounts.max

/-- `Validator` from handlers/validator.rs: the record parsed back out of the
cache by `From<ValidatorCache>`.  The float fields (`inclusion_rate : f32`,
`avg_reward_points : f64`) are modelled as rationals (finite float values). -/
structure Validator where
  stash : String
  controller : String
  name : String
  own_stake : ℕ
  nominators : ℕ
  nominators_stake : ℕ
  inclusion_rate : ℚ
  avg_reward_points : ℚ
  commission : ℕ
  blocked : Bool
  active : Bool
  reward_staked : Bool
  judgements : ℕ
  sub_accounts : ℕ
deriving DecidableEq, Repr

/-- The all-defaults record produced by parsing an empty cache hash. -/
def Validator.empty : Validator :=
  { stash := "", controller := "", name := "", own_stake := 0, nominators := 0
    nominators_stake := 0, inclusion_rate := 0, avg_reward_points := 0
    commission := 0, blocked := false, active := false, reward_staked := false
    judgements := 0, sub_accounts := 0 }

/-- `weights_to_string` from handlers/validator.rs: comma-separated decimals. -/
def weights_to_string (weights : List ℕ) : String :=
  String.intercalate "," (weights.map toString)

/-- `intervals_to_string` from handlers/validator.rs.  Numeric rendering of
the bounds uses Lean's rational `toString` in place of Rust's f64 `Display`;
the board name is only used as a cache key identity here. -/
def intervals_to_string (intervals : List Interval) : String :=
  String.intercalate "," (intervals.map (fun x => toString x.min ++ ":" ++ toString x.max))

/-- `get_board_name` from handlers/validator.rs. -/
def get_board_name (weights : List ℕ) (intervals : Option (List Interval)) : String :=
  match intervals with
  | some i =>
      if i.isEmpty then weights_to_string weights
      else weights_to_string weights ++ "|" ++ intervals_to_string i
  | none => weights_to_string weights

/-- `calculate_scores` from handlers/validator.rs: the ten per-criterion
sub-scores, in the fixed criterion order.  The source signature returns
`Result` but never errs; the embedding returns the list directly.  Weight
indexing `weights[i]` is modelled with `getD i 0` (the callers always pass a
ten-element vector). -/
def calculate_scores (validator : Validator) (limits : BoardLimits)
    (weights : List ℕ) : List ℚ :=
  [ normalize_value validator.inclusion_rate limits.inclusion_rate.min
      limits.inclusion_rate.max * (weights.getD 0 0 : ℚ),
    reverse_normalize_commission validator.commission limits.commission.min
      limits.commission.max * (weights.getD 1 0 : ℚ),
    reverse_normalize_value (validator.nominators : ℚ) limits.nominators.min
      limits.nominators.max * (weights.getD 2 0 : ℚ),
    normalize_value validator.avg_reward_points limits.avg_reward_points.min
      limits.avg_reward_points.max * (weights.getD 3 0 : ℚ),
    normalize_flag validator.reward_staked * (weights.getD 4 0 : ℚ),
    normalize_flag validator.active * (weights.getD 5 0 : ℚ),
    normalize_value (validator.own_stake : ℚ) limits.own_stake.min
      limits.own_stake.max * (weights.getD 6 0 : ℚ),
    reverse_normalize_value ((validator.own_stake + validator.nominators_stake : ℕ) : ℚ)
      limits.total_stake.min limits.total_stake.max * (weights.getD 7 0 : ℚ),
    normalize_value (validator.judgements : ℚ) limits.judgements.min
      limits.judgements.max * (weights.getD 8 0 : ℚ),
    reverse_normalize_value (validator.sub_accounts : ℚ) limits.sub_accounts.min
      limits.sub_accounts.max * (weights.getD 9 0 : ℚ) ]

/-! ### Board name constants — `src/sync/sync.rs` -/

def BOARD_TOTAL_POINTS_ERAS : String := "total:points:era"

def BOARD_MAX_POINTS_ERAS : String := "max:points:era"

def BOARD_MIN_POINTS_ERAS : String := "min:points:era"

def BOARD_ACTIVE_VALIDATORS : String := "active:val"

def BOARD_ALL_VALIDATORS : String := "all:val"

def BOARD_POINTS_VALIDATORS : String := "points:val"

def BOARD_OWN_STAKE_VALIDATORS : String := "own:stake:val"

def BOARD_TOTAL_STAKE_VALIDATORS : String := "total:stake:val"

def BOARD_JUDGEMENTS_VALIDATORS : String := "judgements:val"

def BOARD_SUB_ACCOUNTS_VALIDATORS : String := "sub:accounts:val"

/-- Modelled from the spec: `sync::BOARD_AVG_POINTS_ERAS` is referenced by
handlers/validator.rs (`cache_board_limits`) but its definition is not among
the provided sources; §6 of the specification names this statistical board
`avg:points:era`. -/
def BOARD_AVG_POINTS_ERAS : String := "avg:points:era"

/-! ### Handler-side cache view and board generation -/

/-- The slice of the cache that the leaderboard handlers read.  `info` is the
`Info` hash; `boards e n` is the sorted set at key `{e}:era:{n}:board` (the
empty list when the key is absent — Redis keys with no members do not exist);
`validators s` is the parsed `Validator` record at `{s}:val` (an absent hash
parses to the all-defaults record). -/
structure HCache where
  info : RHash
  boards : ℕ → String → ZSet
  validators : String → Validator

/-- `is_syncing` from handlers/validator.rs: `HGET info syncing`, parsed with
`unwrap_or_default`, `false` when the field is absent. -/
def is_syncing (st : HCache) : Bool :=
  match hget st.info "syncing" with
  | some v => parse_bool v
  | none => false

/-- The "currently syncing" refusal message of both generation functions. -/
def syncingMsg : String :=
  "The system is currently syncing. Usually doesn't take long 5 - 10min. Please just wait a few minutes before you try again. Thank you."

/-- `calculate_min_limit` from handlers/validator.rs: score of the first
element of `ZRANGE ... BYSCORE LIMIT 0 1`, i.e. the least score; 0 when the
set is empty. -/
def calculate_min_limit (z : ZSet) : ℚ :=
  match z.map (·.1) with
  | [] => 0
  | h :: t => t.foldl Min.min h

/-- `calculate_max_limit` from handlers/validator.rs: the greatest score; 0
when the set is empty. -/
def calculate_max_limit (z : ZSet) : ℚ :=
  match z.map (·.1) with
  | [] => 0
  | h :: t => t.foldl Max.max h

/-- `cache_board_limits` composed with `From<BoardLimitsCache>`: fixed
intervals for criteria 0, 1, 2, 4, 5 and min/max scores of the era-0
statistical boards for the others.  (The source also `HSET`s the resulting
map under `{era}:era:{name}:limits:board`; the caller below records that
write with a boolean flag.) -/
def cache_board_limits (st : HCache) : BoardLimits :=
  { inclusion_rate := ⟨0, 1⟩
    commission := ⟨0, (COMMISSION_PLANCK : ℚ)⟩
    nominators := ⟨0, (NOMINATORS_OVERSUBSCRIBED_THRESHOLD : ℚ)⟩
    avg_reward_points := ⟨calculate_min_limit (st.boards 0 BOARD_AVG_POINTS_ERAS),
                          calculate_max_limit (st.boards 0 BOARD_AVG_POINTS_ERAS)⟩
    reward_staked := ⟨0, 1⟩
    active := ⟨0, 1⟩
    own_stake := ⟨calculate_min_limit (st.boards 0 BOARD_OWN_STAKE_VALIDATORS),
                  calculate_max_limit (st.boards 0 BOARD_OWN_STAKE_VALIDATORS)⟩
    total_stake := ⟨calculate_min_limit (st.boards 0 BOARD_TOTAL_STAKE_VALIDATORS),
                    calculate_max_limit (st.boards 0 BOARD_TOTAL_STAKE_VALIDATORS)⟩
    judgements := ⟨calculate_min_limit (st.boards 0 BOARD_JUDGEMENTS_VALIDATORS),
                   calculate_max_limit (st.boards 0 BOARD_JUDGEMENTS_VALIDATORS)⟩
    sub_accounts := ⟨calculate_min_limit (st.boards 0 BOARD_SUB_ACCOUNTS_VALIDATORS),
                     calculate_max_limit (st.boards 0 BOARD_SUB_ACCOUNTS_VALIDATORS)⟩ }

/-- The writes a board-generation call performs: `ZADD`s of (total score,
stash) into the target board, `HSET`s of (stash, per-criterion sub-scores)
into the sibling `:scores` hash, and whether the `:limits` hash was written. -/
structure GenOut where
  boardWrites : List (ℚ × String)
  scoreWrites : List (String × List ℚ)
  limitsWritten : Bool
deriving DecidableEq, Repr

/-- Rust `f64 as u128`: saturating conversion, negative values to 0. -/
def ratToU128 (q : ℚ) : ℕ :=
  Nat.min (Int.toNat ⌊q⌋) (2 ^ 128 - 1)

/-- The per-stash loop of `generate_board_scores`: skip `blocked` validators,
otherwise emit the score writes, in iteration order. -/
def board_scores_loop (st : HCache) (limits : BoardLimits) (weights : List ℕ) :
    List String → List (ℚ × String) × List (String × List ℚ)
  | [] => ([], [])
  | stash :: rest =>
    let validator := st.validators stash
    let out := board_scores_loop st limits weights rest
    if validator.blocked then out
    else
      let scores := calculate_scores validator limits weights
      let score := scores.foldl (fun acc x => acc + x) 0
      ((score, stash) :: out.1, (stash, scores) :: out.2)

/-- `generate_board_scores` from handlers/validator.rs: return immediately
when the board key already exists; refuse while syncing; otherwise derive the
limits (writing the `:limits` hash) and score every member of the era's
`all:val` board. -/
def generate_board_scores (st : HCache) (era_index : ℕ) (weights : List ℕ) :
    Except ApiError GenOut :=
  let board_name := get_board_name weights none
  let kexists : Bool := !(st.boards era_index board_name).isEmpty
  if kexists then .ok ⟨[], [], false⟩
  else if !kexists && is_syncing st then .error (.NotFound syncingMsg)
  else
    let limits := cache_board_limits st
    let stashes := zmembers (st.boards era_index BOARD_ALL_VALIDATORS)
    let out := board_scores_loop st limits weights stashes
    .ok ⟨out.1, out.2, true⟩

/-- The chain of interval `continue` guards of
`generate_board_filtered_by_intervals`, in source order: a validator whose
guard fires is skipped.  Criterion 2 keeps the oversubscription exception,
criteria 4 and 5 the degenerate boolean-interval semantics, and the stake
criteria compare after the `f64 as u128` saturating cast. -/
def excluded_by_intervals (v : Validator) (limits : BoardLimits) : Bool :=
  decide (v.inclusion_rate < limits.inclusion_rate.min ∨
    v.inclusion_rate > limits.inclusion_rate.max) ||
  decide ((v.commission : ℚ) < limits.commission.min ∨
    (v.commission : ℚ) > limits.commission.max) ||
  decide ((v.nominators : ℚ) < limits.nominators.min ∨
    ((v.nominators : ℚ) > limits.nominators.max ∧
      limits.nominators.max < (NOMINATORS_OVERSUBSCRIBED_THRESHOLD : ℚ))) ||
  decide (v.avg_reward_points < limits.avg_reward_points.min ∨
    v.avg_reward_points > limits.avg_reward_points.max) ||
  decide (normalize_flag v.reward_staked ≠ limits.reward_staked.min ∧
    limits.reward_staked.min = limits.reward_staked.max) ||
  decide (normalize_flag v.active ≠ limits.active.min ∧
    limits.active.min = limits.active.max) ||
  decide (v.own_stake < ratToU128 limits.own_stake.min ∨
    v.own_stake > ratToU128 limits.own_stake.max) ||
  decide (v.own_stake + v.nominators_stake < ratToU128 limits.total_stake.min ∨
    v.own_stake + v.nominators_stake > ratToU128 limits.total_stake.max) ||
  decide ((v.judgements : ℚ) < limits.judgements.min ∨
    (v.judgements : ℚ) > limits.judgements.max) ||
  decide ((v.sub_accounts : ℚ) < limits.sub_accounts.min ∨
    (v.sub_accounts : ℚ) > limits.sub_accounts.max)

/-- The per-stash loop of `generate_board_filtered_by_intervals`: skip
`blocked` validators, skip validators outside the user intervals, otherwise
emit the same score writes as the unfiltered loop. -/
def board_filtered_loop (st : HCache) (limits : BoardLimits) (weights : List ℕ) :
    List String → List (ℚ × String) × List (String × List ℚ)
  | [] => ([], [])
  | stash :: rest =>
    let v := st.validators stash
    let out := board_filtered_loop st limits weights rest
    if v.blocked then out
    else if excluded_by_intervals v limits then out
    else
      let scores := calculate_scores v limits weights
      let score := scores.foldl (fun acc x => acc + x) 0
      ((score, stash) :: out.1, (stash, scores) :: out.2)

/-- `generate_board_filtered_by_intervals` from handlers/validator.rs.  Note:
the early return on an existing board key is commented out in the source; the
syncing refusal still only fires when the key does NOT exist
(`!exists && is_syncing`).  The limits come from the user intervals and no
`:limits` hash is written. -/
def generate_board_filtered_by_intervals (st : HCache) (era_index : ℕ)
    (weights : List ℕ) (intervals : List Interval) : Except ApiError GenOut :=
  let board_name := get_board_name weights (some intervals)
  let kexists : Bool := !(st.boards era_index board_name).isEmpty
  if !kexists && is_syncing st then .error (.NotFound syncingMsg)
  else
    let limits := boardLimitsOfIntervals intervals
    let stashes := zmembers (st.boards era_index BOARD_ALL_VALIDATORS)
    let out := board_filtered_loop st limits weights stashes
    .ok ⟨out.1, out.2, false⟩

/-! ### Chain environment — the storage queries of `src/sync/sync.rs` -/

/-- `ValidatorPrefs`: commission in parts-per-billion plus the blocked flag. -/
structure ValidatorPrefs where
  commission : ℕ
  blocked : Bool
deriving DecidableEq, Repr

/-- One entry of an exposure's `others` list. -/
structure IndividualExposure where
  who : String
  value : ℕ
deriving DecidableEq, Repr

/-- `Exposure`: an era's stake view for one validator. -/
structure Exposure where
  total : ℕ
  own : ℕ
  others : List IndividualExposure
deriving DecidableEq, Repr

/-- `EraRewardPoints`: era total and the per-validator points. -/
structure EraRewardPoints where
  total : ℕ
  individual : List (String × ℕ)
deriving DecidableEq, Repr

/-- Identity judgement verdicts; only `Reasonable` and `KnownGood` count. -/
inductive Judgement
  | Reasonable
  | KnownGood
  | OtherVerdict
deriving DecidableEq, Repr

/-- The identity record returned by `identity_of`: the display field is
modelled as the already-parsed string (`parse_identity_data` over the raw
`Data` bytes), the registrar indices of the judgement pairs are dropped. -/
structure IdentityInfo where
  display : String
  judgements : List Judgement
deriving DecidableEq, Repr

/-- The chain storage environment: each field models one storage query or
chain property used by `sync.rs`. -/
structure ChainEnv where
  chainName : String
  tokenSymbol : String
  tokenDecimals : String
  ss58Format : String
  substrateUrl : String
  activeEraInfo : Option ℕ
  historyDepth : ℕ
  validatorsIter : List (String × ValidatorPrefs)
  bonded : String → Option String
  ledgerActive : String → Option ℕ
  payeeStaked : String → Bool
  sessionValidators : List String
  erasValidatorReward : ℕ → Option ℕ
  erasTotalStake : ℕ → ℕ
  erasRewardPoints : ℕ → EraRewardPoints
  erasValidatorPrefs : ℕ → String → ValidatorPrefs
  erasStakers : ℕ → String → Exposure
  erasStakersClipped : ℕ → String → Exposure
  identityOf : String → Option IdentityInfo
  superOf : String → Option (String × String)
  subsOf : String → List String

/-! ### Sync-side cache state -/

/-- The `Era(idx)` hash, typed: each attribute is `none` until written
(`HEXISTS` on a field is `Option.isSome`). -/
structure EraRecord where
  total_reward : Option ℕ := none
  total_stake : Option ℕ := none
  total_reward_points : Option ℕ := none
  min_reward_points : Option ℕ := none
  max_reward_points : Option ℕ := none
  avg_reward_points : Option ℚ := none
  median_reward_points : Option ℕ := none
  synced_at : Option ℕ := none
deriving DecidableEq, Repr

/-- The `ValidatorAtEra(era, stash)` hash, typed. -/
structure VAtEraRecord where
  active : Bool
  reward_points : ℕ
  commission : ℕ
  blocked : Bool
  total_stake : ℕ
  own_stake : ℕ
  others_stake : ℕ
  stakers : ℕ
  others_stake_clipped : ℕ
  stakers_clipped : ℕ
deriving DecidableEq, Repr

/-- The `Validator(stash)` hash as written by the validators pass, typed.
`inclusion_rate` keeps the `Option` of `calculate_inclusion_rate`: `none`
models a non-finite f32 (NaN or an infinity). -/
structure StoredValidator where
  active : Bool
  commission : ℕ
  blocked : Bool
  controller : String
  own_stake : ℕ
  reward_staked : Bool
  inclusion_rate : Option ℚ
  avg_reward_points : ℚ
  name : String
  judgements : ℕ
  sub_accounts : ℕ
  nominators : ℕ
  nominators_stake : ℕ
deriving DecidableEq, Repr

/-- The `Info` hash, typed (`syncing` keeps the stored string form). -/
structure InfoRecord where
  syncing : Option String := none
  syncing_started_at : Option ℕ := none
  syncing_finished_at : Option ℕ := none
  validators : Option ℕ := none
  nominators : Option ℕ := none
deriving DecidableEq, Repr

/-- `ActiveErasByValidator(stash)`: a sorted set with natural scores, member
strings of the form `{era}:{points}`. -/
abbrev NZSet := List (ℕ × String)

/-- `ZADD` on a natural-scored set. -/
def zaddN (z : NZSet) (score : ℕ) (member : String) : NZSet :=
  if z.any (fun e => e.2 == member) then
    z.map (fun e => if e.2 == member then (score, member) else e)
  else z ++ [(score, member)]

/-- The whole sync-side cache, plus a log of chain storage fetches (used to
state that a skipped era sync performs none). -/
structure CacheState where
  info : InfoRecord := {}
  network : RHash := []
  activeEra : Option ℕ := none
  eras : ℕ → EraRecord := fun _ => {}
  validatorAtEra : ℕ → String → Option VAtEraRecord := fun _ _ => none
  activeErasBy : String → NZSet := fun _ => []
  boards : ℕ → String → ZSet := fun _ _ => []
  validatorRec : String → Option StoredValidator := fun _ => none
  fetchLog : List String := []

/-- Replace the `Era(e)` record. -/
def setEraRec (st : CacheState) (e : ℕ) (r : EraRecord) : CacheState :=
  { st with eras := fun e2 => if e2 = e then r else st.eras e2 }

/-- Replace the `ValidatorAtEra(e, stash)` record. -/
def setVAtEra (st : CacheState) (e : ℕ) (stash : String) (r : VAtEraRecord) :
    CacheState :=
  { st with validatorAtEra := fun e2 s2 =>
      if e2 = e ∧ s2 = stash then some r else st.validatorAtEra e2 s2 }

/-- `ZADD` into the board at `(era, name)`. -/
def addBoard (st : CacheState) (e : ℕ) (n : String) (score : ℚ)
    (member : String) : CacheState :=
  { st with boards := fun e2 n2 =>
      if e2 = e ∧ n2 = n then zadd (st.boards e n) score member
      else st.boards e2 n2 }

/-- Append one chain storage fetch to the log. -/
def logFetch (st : CacheState) (what : String) : CacheState :=
  { st with fetchLog := st.fetchLog ++ [what] }

/-- `u32` subtraction (wrapping), for `active_era_index - history_depth`. -/
def u32sub (a b : ℕ) : ℕ := (a + 2 ^ 32 - b % 2 ^ 32) % 2 ^ 32

/-! ### Era history sync — `Sync::eras_history` and friends -/

/-- `Sync::eras_validator_reward`: fetch, default the missing reward to 0,
`HSET` the era's `total_reward`. -/
def eras_validator_reward (env : ChainEnv) (st : CacheState) (era_index : ℕ) :
    CacheState :=
  let st := logFetch st ("eras_validator_reward " ++ toString era_index)
  let reward := (env.erasValidatorReward era_index).getD 0
  setEraRec st era_index { st.eras era_index with total_reward := some reward }

/-- `Sync::eras_total_stake`: fetch and `HSET` the era's `total_stake`. -/
def eras_total_stake (env : ChainEnv) (st : CacheState) (era_index : ℕ) :
    CacheState :=
  let st := logFetch st ("eras_total_stake " ++ toString era_index)
  let total := env.erasTotalStake era_index
  setEraRec st era_index { st.eras era_index with total_stake := some total }

/-- The per-validator body of `Sync::eras_reward_points`: prefs and both
exposure views are fetched (`set_eras_validator_prefs`,
`set_eras_validator_stakers`, `set_eras_validator_stakers_clipped`), the
`ValidatorAtEra` record is written, the era is `ZADD`ed into
`ActiveErasByValidator(stash)` as `{era}:{points}`, and the stash into the
era's `points:val` board. -/
def eras_reward_points_step (env : ChainEnv) (era_index : ℕ) (st : CacheState)
    (entry : String × ℕ) : CacheState :=
  let stash := entry.1
  let points := entry.2
  let st := logFetch st ("eras_validator_prefs " ++ toString era_index ++ " " ++ stash)
  let prefs := env.erasValidatorPrefs era_index stash
  let st := logFetch st ("eras_stakers " ++ toString era_index ++ " " ++ stash)
  let exposure := env.erasStakers era_index stash
  let others_stake := (exposure.others.map (·.value)).sum
  let st := logFetch st ("eras_stakers_clipped " ++ toString era_index ++ " " ++ stash)
  let clipped := env.erasStakersClipped era_index stash
  let others_stake_clipped := (clipped.others.map (·.value)).sum
  let r : VAtEraRecord :=
    { active := true, reward_points := points, commission := prefs.commission
      blocked := prefs.blocked, total_stake := exposure.total
      own_stake := exposure.own, others_stake := others_stake
      stakers := exposure.others.length
      others_stake_clipped := others_stake_clipped
      stakers_clipped := clipped.others.length }
  let st := setVAtEra st era_index stash r
  let member := toString era_index ++ ":" ++ toString points
  let st := { st with activeErasBy := fun s =>
      if s = stash then zaddN (st.activeErasBy stash) era_index member
      else st.activeErasBy s }
  addBoard st era_index BOARD_POINTS_VALIDATORS (points : ℚ) stash

/-- `Sync::eras_reward_points`: fetch the era's reward points, run the
per-validator loop, write the era summary statistics, and update the era-0
statistical boards. -/
def eras_reward_points (env : ChainEnv) (st : CacheState) (era_index : ℕ) :
    CacheState :=
  let st := logFetch st ("eras_reward_points " ++ toString era_index)
  let erp := env.erasRewardPoints era_index
  let st := erp.individual.foldl (eras_reward_points_step env era_index) st
  let reward_points := erp.individual.map (·.2)
  let total := erp.total
  let mn := stats.min reward_points
  let mx := stats.max reward_points
  let avg := stats.mean reward_points
  let med := stats.median reward_points
  let st := setEraRec st era_index
    { st.eras era_index with
      total_reward_points := some total
      min_reward_points := some mn
      max_reward_points := some mx
      avg_reward_points := some avg
      median_reward_points := some med }
  let st := addBoard st 0 BOARD_TOTAL_POINTS_ERAS (total : ℚ) (toString era_index)
  let st := addBoard st 0 BOARD_MAX_POINTS_ERAS (mx : ℚ) (toString era_index)
  addBoard st 0 BOARD_MIN_POINTS_ERAS (mn : ℚ) (toString era_index)

/-- The `Some(true)` branch of `Sync::eras_history`: fetch the three era
storage items and stamp `synced_at` (`now` models `Utc::now().timestamp()`). -/
def eras_history_force (env : ChainEnv) (st : CacheState) (era_index : ℕ)
    (now : ℕ) : CacheState :=
  let st := eras_validator_reward env st era_index
  let st := eras_total_stake env st era_index
  let st := eras_reward_points env st era_index
  setEraRec st era_index { st.eras era_index with synced_at := some now }

/-- `Sync::eras_history`: on `force = Some(true)` sync unconditionally;
otherwise skip when `synced_at` already exists (`HEXISTS`), else recurse with
`Some(true)` (inlined here). -/
def eras_history (env : ChainEnv) (st : CacheState) (era_index : ℕ)
    (force : Option Bool) (now : ℕ) : CacheState :=
  match force with
  | some true => eras_history_force env st era_index now
  | _ =>
    if (st.eras era_index).synced_at.isSome then st
    else eras_history_force env st era_index now

/-- `Sync::eras_history_depth`: sync every era in
`[active_era - history_depth, active_era)` with `force = None`. -/
def eras_history_depth (env : ChainEnv) (st : CacheState)
    (active_era_index : ℕ) (now : ℕ) : CacheState :=
  let start_index := u32sub active_era_index env.historyDepth
  (List.range' start_index (active_era_index - start_index)).foldl
    (fun st e => eras_history env st e none now) st

/-! ### Identity resolution — `Sync::get_identity` -/

/-- The three identity fields the validators pass stores. -/
structure IdentityFields where
  name : String
  judgements : ℕ
  sub_accounts : ℕ
deriving DecidableEq, Repr

/-- The judgement fold from `Sync::get_identity`: count `Reasonable` and
`KnownGood` verdicts. -/
def count_judgements (js : List Judgement) : ℕ :=
  js.foldl (fun acc x =>
    match x with
    | .Reasonable => acc + 1
    | .KnownGood => acc + 1
    | .OtherVerdict => acc) 0

/-- `Sync::get_identity`.  The source recursion (`#[async_recursion]`) is
unbounded; the embedding adds a fuel parameter, returning `none` when the
super chain is longer than the fuel (modelling non-termination on a cyclic
chain).  When the account has an identity, the name is its display, prefixed
to `/{sub_account_name}` when resolving a sub-account; when it has none but
has a super, recurse into the parent with the parent-provided sub-name; when
it has neither, all fields default. -/
def get_identity (env : ChainEnv) : ℕ → String → Option String → Option IdentityFields
  | 0, _, _ => none
  | fuel + 1, stash, sub_account_name =>
    match env.identityOf stash with
    | some identity =>
      let parent := identity.display
      let name :=
        match sub_account_name with
        | some child => parent ++ "/" ++ child
        | none => parent
      some { name := name, judgements := count_judgements identity.judgements
             sub_accounts := (env.subsOf stash).length }
    | none =>
      match env.superOf stash with
      | some (parent_account, data) =>
        get_identity env fuel parent_account (some data)
      | none => some { name := "", judgements := 0, sub_accounts := 0 }

/-! ### Inclusion rate and average points — `Sync::calculate_*` -/

/-- `ZCOUNT key min (max`: entries with score in the half-open window. -/
def zcount_half_open (z : NZSet) (mn mx : ℕ) : ℕ :=
  (z.filter (fun e => decide (mn ≤ e.1) && decide (e.1 < mx))).length

/-- `Sync::calculate_inclusion_rate`: `ZCOUNT` over
`ActiveErasByValidator(stash)` in `[era_index_min, era_index_max)`, divided by
`era_index_max - era_index_min` in f32.  A zero denominator makes the f32
division non-finite (NaN when the count is 0, an infinity otherwise),
modelled as `none`. -/
def calculate_inclusion_rate (z : NZSet) (era_index_min era_index_max : ℕ) :
    Option ℚ :=
  let count : ℚ := (zcount_half_open z era_index_min era_index_max : ℚ)
  let denom : ℚ := (era_index_max : ℚ) - (era_index_min : ℚ)
  if denom = 0 then none else some (count / denom)

/-- Characters after the first `:`, the empty list when there is none. -/
def after_first_colon : List Char → List Char
  | [] => []
  | c :: rest => if c = ':' then rest else after_first_colon rest

/-- Member decoding for `ActiveErasByValidator` entries: the text after the
first `:` of `{era}:{points}`, parsed as a number.  (The source `unwrap`s;
members are always written well-formed by `eras_reward_points`.) -/
def member_points (s : String) : ℕ :=
  parse_u ⟨after_first_colon s.data⟩

/-- `ZRANGE key min (max BYSCORE`: members with score in the window. -/
def zrange_half_open (z : NZSet) (mn mx : ℕ) : List String :=
  (z.filter (fun e => decide (mn ≤ e.1) && decide (e.1 < mx))).map (·.2)

/-- `Sync::calculate_avg_reward_points`: mean of the points decoded from the
members in the era window. -/
def calculate_avg_reward_points (z : NZSet) (era_index_min era_index_max : ℕ) : ℚ :=
  stats.mean ((zrange_half_open z era_index_min era_index_max).map member_points)

/-! ### Validators pass — `Sync::validators` -/

/-- Update the `Validator(stash)` record. -/
def setValidatorRec (st : CacheState) (stash : String)
    (r : Option StoredValidator) : CacheState :=
  { st with validatorRec := fun s => if s = stash then r else st.validatorRec s }

/-- The per-validator body of `Sync::validators`: skip stashes without a
bonded controller; otherwise compute own stake from the controller's ledger,
the payee flag, the inclusion rate and average points over the active-eras
window, resolve the identity, reset the nominator counters, write the full
record, and `ZADD` the stash into the era's `all:val` board and the era-0
`own:stake:val` (when the stake is non-zero), `judgements:val` and
`sub:accounts:val` statistical boards. -/
def validatorsStep (env : ChainEnv) (fuel : ℕ) (active_era_index history_depth : ℕ)
    (st : CacheState) (entry : String × ValidatorPrefs) : CacheState :=
  let stash := entry.1
  let prefs := entry.2
  match env.bonded stash with
  | none => st
  | some controller =>
    let own_stake := (env.ledgerActive controller).getD 0
    let st := if own_stake ≠ 0 then
        addBoard st 0 BOARD_OWN_STAKE_VALIDATORS (own_stake : ℚ) stash
      else st
    let reward_staked := env.payeeStaked stash
    let inclusion_rate := calculate_inclusion_rate (st.activeErasBy stash)
      (u32sub active_era_index history_depth) active_era_index
    let avg_reward_points := calculate_avg_reward_points (st.activeErasBy stash)
      (u32sub active_era_index history_depth) active_era_index
    let idf := (get_identity env fuel stash none).getD ⟨"", 0, 0⟩
    let r : StoredValidator :=
      { active := false, commission := prefs.commission, blocked := prefs.blocked
        controller := controller, own_stake := own_stake
        reward_staked := reward_staked, inclusion_rate := inclusion_rate
        avg_reward_points := avg_reward_points, name := idf.name
        judgements := idf.judgements, sub_accounts := idf.sub_accounts
        nominators := 0, nominators_stake := 0 }
    let st := setValidatorRec st stash (some r)
    let st := addBoard st active_era_index BOARD_ALL_VALIDATORS 0 stash
    let st := addBoard st 0 BOARD_JUDGEMENTS_VALIDATORS (idf.judgements : ℚ) stash
    addBoard st 0 BOARD_SUB_ACCOUNTS_VALIDATORS (idf.sub_accounts : ℚ) stash

/-- `Sync::validators`: read `history_depth` and the active era (erring when
the chain reports none), fold the per-validator body over `validators_iter`,
and record the count of synced (bonded) validators on `Info`.  `fuel` bounds
the identity recursion depth. -/
def validators_pass (env : ChainEnv) (fuel : ℕ) (st : CacheState) :
    Except SyncError CacheState :=
  match env.activeEraInfo with
  | none => .error (.Other "Active era not available")
  | some active_era_index =>
    let st := env.validatorsIter.foldl
      (validatorsStep env fuel active_era_index env.historyDepth) st
    let count := (env.validatorsIter.filter (fun e => (env.bonded e.1).isSome)).length
    .ok { st with info := { st.info with validators := some count } }

/-! ### Startup history task — `Sync::history`, `Sync::status`, `Sync::network` -/

/-- `Status` from sync.rs. -/
inductive SyncStatus
  | Started
  | Finished
deriving DecidableEq, Repr

/-- `Sync::status`: write the syncing flag (as the strings the source stores)
and the matching timestamp on the `Info` hash. -/
def status (st : CacheState) (s : SyncStatus) (now : ℕ) : CacheState :=
  match s with
  | .Started =>
    let i := { st.info with syncing := some "true", syncing_started_at := some now }
    { st with info := i }
  | .Finished =>
    let i := { st.info with syncing := some "false", syncing_finished_at := some now }
    { st with info := i }

/-- `Sync::network`: cache the chain properties (BTreeMap iteration order,
i.e. sorted by key). -/
def network (env : ChainEnv) (st : CacheState) : CacheState :=
  { st with network :=
      [("name", env.chainName), ("ss58_format", env.ss58Format),
       ("substrate_node_url", env.substrateUrl),
       ("token_decimals", env.tokenDecimals),
       ("token_symbol", env.tokenSymbol)] }

/-- `Sync::history` — the one-shot startup task, as the source stands: set
`Started`, cache the network properties, set `Finished`.  The calls to
`active_era`, `eras_history_depth`, `validators`, `nominators` and
`active_validators` between them are commented out in the source and are
therefore absent here.  (`ready_or_await` only probes the cache and mutates
nothing.)  The source returns `Result<(), SyncError>` and only errs on cache
command failures, which are outside this model. -/
def history (env : ChainEnv) (st : CacheState) (t_started t_finished : ℕ) :
    CacheState :=
  let st := status st .Started t_started
  let st := network env st
  status st .Finished t_finished

/-! ### Concrete fixtures used by witnesses and counterexamples -/

/-- A chain environment answering nothing, with the S1 scenario's
`active_era = 100` and `history_depth = 84`. -/
def c1Env : ChainEnv :=
  { chainName := "Kusama", tokenSymbol := "KSM", tokenDecimals := "12"
    ss58Format := "2", substrateUrl := "wss://node.example"
    activeEraInfo := some 100, historyDepth := 84
    validatorsIter := [], bonded := fun _ => none
    ledgerActive := fun _ => none, payeeStaked := fun _ => false
    sessionValidators := [], erasValidatorReward := fun _ => none
    erasTotalStake := fun _ => 0, erasRewardPoints := fun _ => ⟨0, []⟩
    erasValidatorPrefs := fun _ _ => ⟨0, false⟩
    erasStakers := fun _ _ => ⟨0, 0, []⟩, erasStakersClipped := fun _ _ => ⟨0, 0, []⟩
    identityOf := fun _ => none, superOf := fun _ => none, subsOf := fun _ => [] }

/-- A handler cache that is syncing while the unfiltered board
`10:era:5,5,5,5,5,5,5,5,5,5:board` already exists. -/
def c3State : HCache :=
  { info := [("syncing", "true")]
    boards := fun e n => if e = 10 ∧ n = "5,5,5,5,5,5,5,5,5,5" then [(0, "stashx")] else []
    validators := fun _ => Validator.empty }

/-- A handler cache that is syncing with no board key present. -/
def c3wState : HCache :=
  { info := [("syncing", "true")]
    boards := fun _ _ => []
    validators := fun _ => Validator.empty }

/-- A handler cache, not syncing, whose era-7 `all:val` board holds a blocked
validator ("alice") and an unblocked one ("bob"). -/
def c6State : HCache :=
  { info := []
    boards := fun e n =>
      if e = 7 ∧ n = BOARD_ALL_VALIDATORS then [(0, "alice"), (0, "bob")] else []
    validators := fun s =>
      if s = "alice" then { Validator.empty with stash := "alice", blocked := true }
      else { Validator.empty with stash := s } }

/-- A chain environment whose validator iterator yields the blocked "alice"
with a bonded controller. -/
def c6Env : ChainEnv :=
  { c1Env with
    activeEraInfo := some 7
    validatorsIter := [("alice", ⟨100, true⟩)]
    bonded := fun s => if s = "alice" then some "alice:ctrl" else none }

/-- Identity environment A: `s0` is a sub of `s1`, `s1` has no identity but
is itself a sub of `s2`, and `s2`'s display is "root". -/
def c8EnvA : ChainEnv :=
  { c1Env with
    identityOf := fun s => if s = "s2" then some ⟨"root", []⟩ else none
    superOf := fun s =>
      if s = "s0" then some ("s1", "a")
      else if s = "s1" then some ("s2", "b") else none }

/-- Identity environment B: identical to A except for the display of the
grandparent `s2`. -/
def c8EnvB : ChainEnv :=
  { c8EnvA with
    identityOf := fun s => if s = "s2" then some ⟨"other", []⟩ else none }

/-- Identity environment for the one-hop witness: `w0` is a sub named "sub"
of `w1`, whose display is "Parent" with one `KnownGood` judgement and two
registered sub-accounts. -/
def c8EnvW : ChainEnv :=
  { c1Env with
    identityOf := fun s => if s = "w1" then some ⟨"Parent", [.KnownGood]⟩ else none
    superOf := fun s => if s = "w0" then some ("w1", "sub") else none
    subsOf := fun s => if s = "w1" then ["w0", "w2"] else [] }

/-- A chain environment whose era reward points are `(v1, 3)` and `(v2, 5)`. -/
def c9Env : ChainEnv :=
  { c1Env with erasRewardPoints := fun _ => ⟨8, [("v1", 3), ("v2", 5)]⟩ }

/-- Board limits in which every criterion interval is proper. -/
def c10Limits : BoardLimits :=
  { inclusion_rate := ⟨0, 1⟩, commission := ⟨0, (COMMISSION_PLANCK : ℚ)⟩
    nominators := ⟨0, 256⟩, avg_reward_points := ⟨0, 1⟩, reward_staked := ⟨0, 1⟩
    active := ⟨0, 1⟩, own_stake := ⟨0, 1⟩, total_stake := ⟨0, 1⟩
    judgements := ⟨0, 1⟩, sub_accounts := ⟨0, 1⟩ }

/-! ## Lemma layer -/

theorem foldl_nat_min_le_init (t : List ℕ) (a : ℕ) : t.foldl Nat.min a ≤ a := by
  induction t generalizing a with
  | nil => exact le_refl a
  | cons h t ih => exact le_trans (ih (Nat.min a h)) (Nat.min_le_left a h)

theorem foldl_nat_min_le_mem (t : List ℕ) (a x : ℕ) (hx : x ∈ t) :
    t.foldl Nat.min a ≤ x := by
  induction t generalizing a with
  | nil => cases hx
  | cons h t ih =>
    rcases List.mem_cons.mp hx with rfl | hx2
    · exact le_trans (foldl_nat_min_le_init t (Nat.min a x)) (Nat.min_le_right a x)
    · exact ih (Nat.min a h) hx2

theorem stats_min_le_of_mem (l : List ℕ) (x : ℕ) (hx : x ∈ l) :
    stats.min l ≤ x := by
  cases l with
  | nil => cases hx
  | cons h t =>
    rcases List.mem_cons.mp hx with rfl | hx2
    · exact foldl_nat_min_le_init t x
    · exact foldl_nat_min_le_mem t h x hx2

theorem init_le_foldl_nat_max (t : List ℕ) (a : ℕ) : a ≤ t.foldl Nat.max a := by
  induction t generalizing a with
  | nil => exact le_refl a
  | cons h t ih => exact le_trans (Nat.le_max_left a h) (ih (Nat.max a h))

theorem mem_le_foldl_nat_max (t : List ℕ) (a x : ℕ) (hx : x ∈ t) :
    x ≤ t.foldl Nat.max a := by
  induction t generalizing a with
  | nil => cases hx
  | cons h t ih =>
    rcases List.mem_cons.mp hx with rfl | hx2
    · exact le_trans (Nat.le_max_right a x) (init_le_foldl_nat_max t (Nat.max a x))
    · exact ih (Nat.max a h) hx2

theorem stats_le_max_of_mem (l : List ℕ) (x : ℕ) (hx : x ∈ l) :
    x ≤ stats.max l := by
  cases l with
  | nil => cases hx
  | cons h t =>
    rcases List.mem_cons.mp hx with rfl | hx2
    · exact init_le_foldl_nat_max t x
    · exact mem_le_foldl_nat_max t h x hx2

theorem stats_median_mem (l : List ℕ) (hl : l ≠ []) : stats.median l ∈ l := by
  have hlen : l.length ≠ 0 := fun h => hl (List.length_eq_zero.mp h)
  have hperm := List.mergeSort_perm l (fun a b => a ≤ b)
  have hlen2 : (l.mergeSort (fun a b => a ≤ b)).length = l.length := hperm.length_eq
  have hidx : l.length / 2 < (l.mergeSort (fun a b => a ≤ b)).length := by
    rw [hlen2]
    exact Nat.div_lt_self (Nat.pos_of_ne_zero hlen) (by norm_num)
  have hmem : (l.mergeSort (fun a b => a ≤ b)).getD (l.length / 2) 0 ∈
      l.mergeSort (fun a b => a ≤ b) := by
    rw [List.getD_eq_getElem _ _ hidx]
    exact List.getElem_mem hidx
  have : (l.mergeSort (fun a b => a ≤ b)).getD (l.length / 2) 0 ∈ l :=
    hperm.mem_iff.mp hmem
  simpa [stats.median, hlen] using this

theorem stats_sum_le_len_mul_max (l : List ℕ) : l.sum ≤ l.length * stats.max l := by
  have := List.sum_le_card_nsmul l (stats.max l)
    (fun x hx => stats_le_max_of_mem l x hx)
  simpa [smul_eq_mul] using this

theorem stats_len_mul_min_le_sum (l : List ℕ) : l.length * stats.min l ≤ l.sum := by
  have := List.card_nsmul_le_sum l (stats.min l)
    (fun x hx => stats_min_le_of_mem l x hx)
  simpa [smul_eq_mul] using this

/-! ## Claim C2 -/

/-- C2: the 404 branch of `get_era` is dead code, because `era_index` is
inserted into the hash before the `data.len() == 0` test.  Requesting era 999
against a cache with no record for it returns the zero-filled era summary
with HTTP 200, not the `NotFound` error the claim requires. -/
theorem get_era_missing_returns_ok :
    get_era [] 999 = .ok ⟨999, 0, 0, 0, 0, 0, 0⟩ := by
  decide

/-! ## Claim C4 -/

/-- C4: `normalize_value v lo hi` is 0 when `v = 0` or `v < lo`, 1 when
(failing those) `v > hi`, and `(v - lo) / (hi - lo)` otherwise;
`reverse_normalize_value` is one minus it; `normalize_flag` maps `true` to 1
and `false` to 0. -/
theorem normalize_value_spec (v lo hi : ℚ) :
    ((v = 0 ∨ v < lo) → normalize_value v lo hi = 0) ∧
    (¬(v = 0 ∨ v < lo) → v > hi → normalize_value v lo hi = 1) ∧
    (¬(v = 0 ∨ v < lo) → ¬ v > hi →
      normalize_value v lo hi = (v - lo) / (hi - lo)) ∧
    reverse_normalize_value v lo hi = 1 - normalize_value v lo hi ∧
    normalize_flag true = 1 ∧ normalize_flag false = 0 := by
  refine ⟨?_, ?_, ?_, rfl, rfl, rfl⟩
  · intro h
    simp [normalize_value, h]
  · intro h1 h2
    simp [normalize_value, h1, h2]
  · intro h1 h2
    simp [normalize_value, h1, h2]

/-- Witness for C4 at `v = 7`, `lo = 1`, `hi = 5` (the "clamp to 1" branch)
and `v = 3` (the interpolation branch). -/
theorem normalize_value_spec_witness :
    normalize_value 7 1 5 = 1 ∧ normalize_value 3 1 5 = (3 - 1) / (5 - 1) := by
  constructor
  · exact (normalize_value_spec 7 1 5).2.1 (by norm_num) (by norm_num)
  · exact (normalize_value_spec 3 1 5).2.2.1 (by norm_num) (by norm_num)

/-! ## Claim C5 -/

/-- C5: with `history_depth = 0` the window `[active_era, active_era)` is
empty and `calculate_inclusion_rate` divides the count 0 by the f32 value
`0.0`, producing NaN (a non-finite value, `none` in the model) — not the 0
the claim requires. -/
theorem inclusion_rate_zero_window_nan :
    calculate_inclusion_rate [] 100 100 = none := by
  simp [calculate_inclusion_rate, zcount_half_open]

/-! ## Claim C7 -/

/-- Fields of an era record after a forced sync. -/
theorem eras_history_force_synced (env : ChainEnv) (st : CacheState)
    (era_index now : ℕ) :
    ((eras_history_force env st era_index now).eras era_index).synced_at = some now := by
  simp [eras_history_force, setEraRec]

/-- C7: a forced era sync stamps `synced_at`, so a following
`eras_history(era, force = None)` (and likewise `force = Some(false)`) skips:
the cache state — fetch log included — is returned unchanged. -/
theorem eras_history_noop_after_force (env : ChainEnv) (st : CacheState)
    (era_index now now2 : ℕ) :
    eras_history env (eras_history env st era_index (some true) now)
        era_index none now2 =
      eras_history env st era_index (some true) now ∧
    eras_history env (eras_history env st era_index (some true) now)
        era_index (some false) now2 =
      eras_history env st era_index (some true) now := by
  constructor
  · simp only [eras_history]
    rw [eras_history_force_synced]
    simp
  · simp only [eras_history]
    rw [eras_history_force_synced]
    simp

/-! ## Claim C1 -/

/-- C1: the startup history task, as committed, performs no era backfill at
all — the calls to `active_era`, `eras_history_depth`, `validators`,
`nominators` and `active_validators` are commented out.  Starting from an
empty cache with the chain reporting `active_era = 100`,
`history_depth = 84`: era 16 (and every other era) remains without
`synced_at`, no chain storage is fetched, the era-100 `all:val` board stays
empty, and yet `Info.syncing` finishes `false`. -/
theorem history_startup_skips_backfill :
    ((history c1Env {} 10 20).eras 16).synced_at = none ∧
    (history c1Env {} 10 20).fetchLog = [] ∧
    (history c1Env {} 10 20).boards 100 BOARD_ALL_VALIDATORS = [] ∧
    (history c1Env {} 10 20).info.syncing = some "false" := by
  refine ⟨rfl, rfl, rfl, rfl⟩

/-! ## Claim C9 -/

theorem eras_step_preserves_eras (env : ChainEnv) (e : ℕ) (st : CacheState)
    (p : String × ℕ) : (eras_reward_points_step env e st p).eras = st.eras := rfl

theorem eras_loop_preserves_eras (env : ChainEnv) (e : ℕ)
    (l : List (String × ℕ)) (st : CacheState) :
    (l.foldl (eras_reward_points_step env e) st).eras = st.eras := by
  induction l generalizing st with
  | nil => rfl
  | cons p t ih => rw [List.foldl_cons, ih, eras_step_preserves_eras]

/-- The era summary written by `eras_reward_points` is exactly the statistics
kernel applied to the era's per-validator points. -/
theorem eras_reward_points_summary (env : ChainEnv) (st : CacheState)
    (era_index : ℕ) :
    (eras_reward_points env st era_index).eras era_index =
      { (st.eras era_index) with
        total_reward_points := some (env.erasRewardPoints era_index).total
        min_reward_points :=
          some (stats.min ((env.erasRewardPoints era_index).individual.map (·.2)))
        max_reward_points :=
          some (stats.max ((env.erasRewardPoints era_index).individual.map (·.2)))
        avg_reward_points :=
          some (stats.mean ((env.erasRewardPoints era_index).individual.map (·.2)))
        median_reward_points :=
          some (stats.median ((env.erasRewardPoints era_index).individual.map (·.2))) } := by
  simp [eras_reward_points, addBoard, setEraRec, eras_loop_preserves_eras, logFetch]

/-- C9 (amended): for a non-empty list of per-validator reward points whose
sum fits in `u32` (so the wrapping sum inside `stats::mean` does not
overflow), the era summary stored by `eras_reward_points` carries the kernel
statistics and they are ordered: `min ≤ median ≤ max` and `min ≤ mean ≤ max`. -/
theorem era_summary_stats (env : ChainEnv) (st : CacheState) (era_index : ℕ)
    (hne : (env.erasRewardPoints era_index).individual ≠ [])
    (hsum : ((env.erasRewardPoints era_index).individual.map (·.2)).sum < 2 ^ 32) :
    ((eras_reward_points env st era_index).eras era_index).min_reward_points =
      some (stats.min ((env.erasRewardPoints era_index).individual.map (·.2))) ∧
    ((eras_reward_points env st era_index).eras era_index).median_reward_points =
      some (stats.median ((env.erasRewardPoints era_index).individual.map (·.2))) ∧
    ((eras_reward_points env st era_index).eras era_index).max_reward_points =
      some (stats.max ((env.erasRewardPoints era_index).individual.map (·.2))) ∧
    ((eras_reward_points env st era_index).eras era_index).avg_reward_points =
      some (stats.mean ((env.erasRewardPoints era_index).individual.map (·.2))) ∧
    stats.min ((env.erasRewardPoints era_index).individual.map (·.2)) ≤
      stats.median ((env.erasRewardPoints era_index).individual.map (·.2)) ∧
    stats.median ((env.erasRewardPoints era_index).individual.map (·.2)) ≤
      stats.max ((env.erasRewardPoints era_index).individual.map (·.2)) ∧
    (stats.min ((env.erasRewardPoints era_index).individual.map (·.2)) : ℚ) ≤
      stats.mean ((env.erasRewardPoints era_index).individual.map (·.2)) ∧
    stats.mean ((env.erasRewardPoints era_index).individual.map (·.2)) ≤
      (stats.max ((env.erasRewardPoints era_index).individual.map (·.2)) : ℚ) := by
  set pts := (env.erasRewardPoints era_index).individual.map (·.2) with hpts
  have hptsne : pts ≠ [] := by
    simpa [hpts, List.map_eq_nil_iff] using hne
  have hlen : pts.length ≠ 0 := fun h => hptsne (List.length_eq_zero.mp h)
  have hlenpos : (0 : ℚ) < (pts.length : ℚ) := by
    exact_mod_cast Nat.pos_of_ne_zero hlen
  have hmed : stats.median pts ∈ pts := stats_median_mem pts hptsne
  have hmean : stats.mean pts = (pts.sum : ℚ) / (pts.length : ℚ) := by
    unfold stats.mean
    rw [if_neg hlen, Nat.mod_eq_of_lt hsum]
  refine ⟨?_, ?_, ?_, ?_, ?_, ?_, ?_, ?_⟩
  · rw [eras_reward_points_summary]
  · rw [eras_reward_points_summary]
  · rw [eras_reward_points_summary]
  · rw [eras_reward_points_summary]
  · exact stats_min_le_of_mem pts _ hmed
  · exact stats_le_max_of_mem pts _ hmed
  · rw [hmean, le_div_iff₀ hlenpos]
    have h := stats_len_mul_min_le_sum pts
    calc (stats.min pts : ℚ) * (pts.length : ℚ)
        = ((pts.length * stats.min pts : ℕ) : ℚ) := by push_cast; ring
      _ ≤ ((pts.sum : ℕ) : ℚ) := by exact_mod_cast h
  · rw [hmean, div_le_iff₀ hlenpos]
    have h := stats_sum_le_len_mul_max pts
    calc ((pts.sum : ℕ) : ℚ) ≤ ((pts.length * stats.max pts : ℕ) : ℚ) := by
          exact_mod_cast h
      _ = (stats.max pts : ℚ) * (pts.length : ℚ) := by push_cast; ring

/-- Witness for C9 (amended) at the concrete era points `(v1, 3), (v2, 5)`. -/
theorem era_summary_stats_witness :
    (c9Env.erasRewardPoints 7).individual ≠ [] ∧
    ((c9Env.erasRewardPoints 7).individual.map (·.2)).sum < 2 ^ 32 ∧
    (((eras_reward_points c9Env {} 7).eras 7).min_reward_points =
        some (stats.min ((c9Env.erasRewardPoints 7).individual.map (·.2))) ∧
      ((eras_reward_points c9Env {} 7).eras 7).median_reward_points =
        some (stats.median ((c9Env.erasRewardPoints 7).individual.map (·.2))) ∧
      ((eras_reward_points c9Env {} 7).eras 7).max_reward_points =
        some (stats.max ((c9Env.erasRewardPoints 7).individual.map (·.2))) ∧
      ((eras_reward_points c9Env {} 7).eras 7).avg_reward_points =
        some (stats.mean ((c9Env.erasRewardPoints 7).individual.map (·.2))) ∧
      stats.min ((c9Env.erasRewardPoints 7).individual.map (·.2)) ≤
        stats.median ((c9Env.erasRewardPoints 7).individual.map (·.2)) ∧
      stats.median ((c9Env.erasRewardPoints 7).individual.map (·.2)) ≤
        stats.max ((c9Env.erasRewardPoints 7).individual.map (·.2)) ∧
      (stats.min ((c9Env.erasRewardPoints 7).individual.map (·.2)) : ℚ) ≤
        stats.mean ((c9Env.erasRewardPoints 7).individual.map (·.2)) ∧
      stats.mean ((c9Env.erasRewardPoints 7).individual.map (·.2)) ≤
        (stats.max ((c9Env.erasRewardPoints 7).individual.map (·.2)) : ℚ)) :=
  ⟨by decide, by decide, era_summary_stats c9Env {} 7 (by decide) (by decide)⟩

/-- Counterexample for C9 as stated: on the reward-point list
`[2^31, 2^31]` the `u32` sum inside `stats::mean` wraps to 0, so the stored
mean is 0 while the minimum is `2^31` — `min ≤ mean` fails. -/
theorem mean_wraps_below_min :
    stats.mean [2 ^ 31, 2 ^ 31] = 0 ∧
    stats.min [2 ^ 31, 2 ^ 31] = 2 ^ 31 ∧
    ¬ ((stats.min [2 ^ 31, 2 ^ 31] : ℚ) ≤ stats.mean [2 ^ 31, 2 ^ 31]) := by
  have h1 : stats.mean [2 ^ 31, 2 ^ 31] = 0 := by
    norm_num [stats.mean]
  have h2 : stats.min [2 ^ 31, 2 ^ 31] = 2 ^ 31 := by
    norm_num [stats.min]
  refine ⟨h1, h2, ?_⟩
  rw [h1, h2]
  norm_num

/-! ## Claim C3 -/

/-- C3 (amended): while `Info.syncing` is true, a generation request whose
target board key does not already exist is refused with the "currently
syncing" `NotFound` error — for every weights vector and every intervals
vector, in both the unfiltered and the interval-filtered variant — and,
having erred before any write, stores no board, limits or scores keys. -/
theorem board_generation_refused_when_syncing (st : HCache) (era_index : ℕ)
    (weights : List ℕ) (intervals : List Interval)
    (hs : is_syncing st = true)
    (h1 : st.boards era_index (get_board_name weights none) = [])
    (h2 : st.boards era_index (get_board_name weights (some intervals)) = []) :
    generate_board_scores st era_index weights = .error (.NotFound syncingMsg) ∧
    generate_board_filtered_by_intervals st era_index weights intervals =
      .error (.NotFound syncingMsg) := by
  constructor
  · simp [generate_board_scores, h1, hs]
  · simp [generate_board_filtered_by_intervals, h2, hs]

/-- Witness for C3 (amended): a syncing cache with no boards refuses both
variants. -/
theorem board_generation_refused_witness :
    is_syncing c3wState = true ∧
    c3wState.boards 10 (get_board_name [5, 5, 5, 5, 5, 5, 5, 5, 5, 5] none) = [] ∧
    c3wState.boards 10
      (get_board_name [5, 5, 5, 5, 5, 5, 5, 5, 5, 5] (some [])) = [] ∧
    (generate_board_scores c3wState 10 [5, 5, 5, 5, 5, 5, 5, 5, 5, 5] =
        .error (.NotFound syncingMsg) ∧
      generate_board_filtered_by_intervals c3wState 10
        [5, 5, 5, 5, 5, 5, 5, 5, 5, 5] [] = .error (.NotFound syncingMsg)) :=
  ⟨by decide, rfl, rfl,
    board_generation_refused_when_syncing c3wState 10
      [5, 5, 5, 5, 5, 5, 5, 5, 5, 5] [] (by decide) rfl rfl⟩

/-- Counterexample for C3 as stated: when the unfiltered board key already
exists, `generate_board_scores` returns `Ok` immediately — the request is NOT
refused with the "currently syncing" error even though `Info.syncing` is
true. -/
theorem board_generation_not_refused_cex :
    is_syncing c3State = true ∧
    generate_board_scores c3State 10 [5, 5, 5, 5, 5, 5, 5, 5, 5, 5] =
      .ok ⟨[], [], false⟩ := by
  constructor
  · decide
  · decide

/-! ## Claim C8 -/

/-- C8 (amended): when the sub-account's parent itself carries an identity,
resolution takes exactly one hop and the resulting name is the parent's
display joined with the sub-name as `{parent_display}/{sub_name}`. -/
theorem get_identity_one_hop (env : ChainEnv) (fuel : ℕ)
    (stash parent subname : String) (info : IdentityInfo)
    (h1 : env.identityOf stash = none)
    (h2 : env.superOf stash = some (parent, subname))
    (h3 : env.identityOf parent = some info) :
    get_identity env (fuel + 2) stash none =
      some ⟨info.display ++ "/" ++ subname, count_judgements info.judgements,
            (env.subsOf parent).length⟩ := by
  simp [get_identity, h1, h2, h3]

/-- Witness for C8 (amended): `w0` is the sub "sub" of `w1` whose display is
"Parent" with one positive judgement and two sub-accounts. -/
theorem get_identity_one_hop_witness :
    c8EnvW.identityOf "w0" = none ∧
    c8EnvW.superOf "w0" = some ("w1", "sub") ∧
    c8EnvW.identityOf "w1" = some ⟨"Parent", [.KnownGood]⟩ ∧
    get_identity c8EnvW 5 "w0" none = some ⟨"Parent/sub", 1, 2⟩ := by
  refine ⟨rfl, rfl, rfl, ?_⟩
  rw [get_identity_one_hop c8EnvW 3 "w0" "w1" "sub" ⟨"Parent", [.KnownGood]⟩ rfl rfl rfl]
  decide

/-- Counterexample for C8 as stated: in environment A the parent `s1` has no
identity but has its own super `s2`, and resolution takes a second hop — the
result is built from the grandparent's display ("root/b", and "other/b" in
environment B, which differs from A only at `s2`), not from the parent's
display joined with the first sub-name "a". -/
theorem get_identity_second_hop_cex :
    c8EnvA.identityOf "s0" = none ∧
    c8EnvA.superOf "s0" = some ("s1", "a") ∧
    c8EnvB.identityOf "s0" = none ∧
    c8EnvB.superOf "s0" = some ("s1", "a") ∧
    c8EnvB.identityOf "s1" = c8EnvA.identityOf "s1" ∧
    c8EnvB.superOf "s1" = c8EnvA.superOf "s1" ∧
    get_identity c8EnvA 3 "s0" none = some ⟨"root/b", 0, 0⟩ ∧
    get_identity c8EnvB 3 "s0" none = some ⟨"other/b", 0, 0⟩ := by
  refine ⟨rfl, rfl, rfl, rfl, rfl, rfl, by decide, by decide⟩

/-! ## Claim C10 -/

theorem normalize_value_bounds (v mn mx : ℚ) (h : mn < mx) :
    0 ≤ normalize_value v mn mx ∧ normalize_value v mn mx ≤ 1 := by
  unfold normalize_value
  split_ifs with h1 h2
  · norm_num
  · norm_num
  · push_neg at h1 h2
    constructor
    · apply div_nonneg <;> linarith [h1.2]
    · rw [div_le_one (by linarith)]
      linarith

theorem reverse_normalize_value_bounds (v mn mx : ℚ) (h : mn < mx) :
    0 ≤ reverse_normalize_value v mn mx ∧ reverse_normalize_value v mn mx ≤ 1 := by
  have := normalize_value_bounds v mn mx h
  unfold reverse_normalize_value
  constructor <;> linarith [this.1, this.2]

theorem reverse_normalize_commission_bounds (c : ℕ) (mn mx : ℚ) (h : mn < mx) :
    0 ≤ reverse_normalize_commission c mn mx ∧
    reverse_normalize_commission c mn mx ≤ 1 := by
  have hp : (0 : ℚ) < (COMMISSION_PLANCK : ℚ) := by norm_num [COMMISSION_PLANCK]
  have hdiv : mn / (COMMISSION_PLANCK : ℚ) < mx / (COMMISSION_PLANCK : ℚ) :=
    div_lt_div_of_pos_right h hp
  unfold reverse_normalize_commission
  exact reverse_normalize_value_bounds _ _ _ hdiv

theorem normalize_flag_bounds (b : Bool) :
    0 ≤ normalize_flag b ∧ normalize_flag b ≤ 1 := by
  cases b <;> norm_num [normalize_flag]

theorem score_term_bounds (u : ℚ) (w : ℕ) (h0 : 0 ≤ u) (h1 : u ≤ 1) :
    0 ≤ u * (w : ℚ) ∧ u * (w : ℚ) ≤ (w : ℚ) := by
  constructor
  · exact mul_nonneg h0 (by positivity)
  · calc u * (w : ℚ) ≤ 1 * (w : ℚ) :=
        mul_le_mul_of_nonneg_right h1 (by positivity)
      _ = (w : ℚ) := one_mul _

/-- C10: with every criterion interval proper (`min < max`) and a ten-element
weights vector, each of the ten sub-scores of `calculate_scores` lies in
`[0, w_i]`, the total score lies in `[0, Σ w_i]`, and with every `w_i ≤ 9`
the total never exceeds 90. -/
theorem calculate_scores_bounded (v : Validator) (l : BoardLimits)
    (w0 w1 w2 w3 w4 w5 w6 w7 w8 w9 : ℕ) (hl : limits_proper l) :
    (∀ i, i < 10 →
      0 ≤ (calculate_scores v l [w0, w1, w2, w3, w4, w5, w6, w7, w8, w9]).getD i 0 ∧
      (calculate_scores v l [w0, w1, w2, w3, w4, w5, w6, w7, w8, w9]).getD i 0 ≤
        (([w0, w1, w2, w3, w4, w5, w6, w7, w8, w9].getD i 0 : ℕ) : ℚ)) ∧
    0 ≤ (calculate_scores v l [w0, w1, w2, w3, w4, w5, w6, w7, w8, w9]).sum ∧
    (calculate_scores v l [w0, w1, w2, w3, w4, w5, w6, w7, w8, w9]).sum ≤
      ((w0 + w1 + w2 + w3 + w4 + w5 + w6 + w7 + w8 + w9 : ℕ) : ℚ) ∧
    (w0 ≤ 9 → w1 ≤ 9 → w2 ≤ 9 → w3 ≤ 9 → w4 ≤ 9 → w5 ≤ 9 → w6 ≤ 9 → w7 ≤ 9 →
      w8 ≤ 9 → w9 ≤ 9 →
      (calculate_scores v l [w0, w1, w2, w3, w4, w5, w6, w7, w8, w9]).sum ≤ 90) := by
  obtain ⟨p0, p1, p2, p3, p4, p5, p6, p7, p8, p9⟩ := hl
  have b0 := score_term_bounds _ w0
    (normalize_value_bounds v.inclusion_rate _ _ p0).1
    (normalize_value_bounds v.inclusion_rate _ _ p0).2
  have b1 := score_term_bounds _ w1
    (reverse_normalize_commission_bounds v.commission _ _ p1).1
    (reverse_normalize_commission_bounds v.commission _ _ p1).2
  have b2 := score_term_bounds _ w2
    (reverse_normalize_value_bounds (v.nominators : ℚ) _ _ p2).1
    (reverse_normalize_value_bounds (v.nominators : ℚ) _ _ p2).2
  have b3 := score_term_bounds _ w3
    (normalize_value_bounds v.avg_reward_points _ _ p3).1
    (normalize_value_bounds v.avg_reward_points _ _ p3).2
  have b4 := score_term_bounds _ w4
    (normalize_flag_bounds v.reward_staked).1 (normalize_flag_bounds v.reward_staked).2
  have b5 := score_term_bounds _ w5
    (normalize_flag_bounds v.active).1 (normalize_flag_bounds v.active).2
  have b6 := score_term_bounds _ w6
    (normalize_value_bounds (v.own_stake : ℚ) _ _ p6).1
    (normalize_value_bounds (v.own_stake : ℚ) _ _ p6).2
  have b7 := score_term_bounds _ w7
    (reverse_normalize_value_bounds ((v.own_stake + v.nominators_stake : ℕ) : ℚ) _ _ p7).1
    (reverse_normalize_value_bounds ((v.own_stake + v.nominators_stake : ℕ) : ℚ) _ _ p7).2
  have b8 := score_term_bounds _ w8
    (normalize_value_bounds (v.judgements : ℚ) _ _ p8).1
    (normalize_value_bounds (v.judgements : ℚ) _ _ p8).2
  have b9 := score_term_bounds _ w9
    (reverse_normalize_value_bounds (v.sub_accounts : ℚ) _ _ p9).1
    (reverse_normalize_value_bounds (v.sub_accounts : ℚ) _ _ p9).2
  push_cast at b7
  refine ⟨?_, ?_, ?_, ?_⟩
  · intro i hi
    interval_cases i <;>
      simp only [calculate_scores, List.getD_cons_zero, List.getD_cons_succ] <;>
      push_cast <;>
      exact ⟨by tauto, by tauto⟩
  · simp only [calculate_scores, List.sum_cons, List.sum_nil,
      List.getD_cons_zero, List.getD_cons_succ]
    push_cast
    linarith [b0.1, b1.1, b2.1, b3.1, b4.1, b5.1, b6.1, b7.1, b8.1, b9.1]
  · simp only [calculate_scores, List.sum_cons, List.sum_nil,
      List.getD_cons_zero, List.getD_cons_succ]
    push_cast
    linarith [b0.2, b1.2, b2.2, b3.2, b4.2, b5.2, b6.2, b7.2, b8.2, b9.2]
  · intro h0 h1 h2 h3 h4 h5 h6 h7 h8 h9
    simp only [calculate_scores, List.sum_cons, List.sum_nil,
      List.getD_cons_zero, List.getD_cons_succ]
    push_cast
    have c0 : ((w0 : ℚ)) ≤ 9 := by exact_mod_cast h0
    have c1 : ((w1 : ℚ)) ≤ 9 := by exact_mod_cast h1
    have c2 : ((w2 : ℚ)) ≤ 9 := by exact_mod_cast h2
    have c3 : ((w3 : ℚ)) ≤ 9 := by exact_mod_cast h3
    have c4 : ((w4 : ℚ)) ≤ 9 := by exact_mod_cast h4
    have c5 : ((w5 : ℚ)) ≤ 9 := by exact_mod_cast h5
    have c6 : ((w6 : ℚ)) ≤ 9 := by exact_mod_cast h6
    have c7 : ((w7 : ℚ)) ≤ 9 := by exact_mod_cast h7
    have c8 : ((w8 : ℚ)) ≤ 9 := by exact_mod_cast h8
    have c9 : ((w9 : ℚ)) ≤ 9 := by exact_mod_cast h9
    linarith [b0.2, b1.2, b2.2, b3.2, b4.2, b5.2, b6.2, b7.2, b8.2, b9.2]

/-- Witness for C10 at an all-nines weights vector and proper limits. -/
theorem calculate_scores_bounded_witness :
    limits_proper c10Limits ∧
    (0 ≤ (calculate_scores Validator.empty c10Limits
        [9, 9, 9, 9, 9, 9, 9, 9, 9, 9]).sum ∧
      (calculate_scores Validator.empty c10Limits
        [9, 9, 9, 9, 9, 9, 9, 9, 9, 9]).sum ≤ 90) := by
  have hl : limits_proper c10Limits := by
    refine ⟨?_, ?_, ?_, ?_, ?_, ?_, ?_, ?_, ?_, ?_⟩ <;>
      norm_num [c10Limits, COMMISSION_PLANCK]
  have h := calculate_scores_bounded Validator.empty c10Limits
    9 9 9 9 9 9 9 9 9 9 hl
  exact ⟨hl, h.2.1, h.2.2.2 (by norm_num) (by norm_num) (by norm_num)
    (by norm_num) (by norm_num) (by norm_num) (by norm_num) (by norm_num)
    (by norm_num) (by norm_num)⟩

/-! ## Claim C6 -/

theorem zmembers_zadd (z : ZSet) (s : ℚ) (m : String) :
    zmembers (zadd z s m) =
      if z.any (fun e => e.2 == m) then zmembers z else zmembers z ++ [m] := by
  unfold zadd zmembers
  split_ifs with h
  · rw [List.map_map]
    apply List.map_congr_left
    intro e _
    by_cases he : e.2 = m
    · simp [he]
    · simp [he]
  · simp

theorem mem_zmembers_zadd_self (z : ZSet) (s : ℚ) (m : String) :
    m ∈ zmembers (zadd z s m) := by
  rw [zmembers_zadd]
  split_ifs with h
  · obtain ⟨e, he, hbe⟩ := List.any_eq_true.mp h
    exact List.mem_map.mpr ⟨e, he, eq_of_beq hbe⟩
  · exact List.mem_append_right _ (List.mem_singleton.mpr rfl)

theorem mem_zmembers_zadd_of_mem (z : ZSet) (s : ℚ) (m x : String)
    (hx : x ∈ zmembers z) : x ∈ zmembers (zadd z s m) := by
  rw [zmembers_zadd]
  split_ifs with h
  · exact hx
  · exact List.mem_append_left _ hx

theorem board_scores_loop_excludes (st : HCache) (limits : BoardLimits)
    (weights : List ℕ) (stash : String)
    (hb : (st.validators stash).blocked = true) (stashes : List String) :
    (∀ p ∈ (board_scores_loop st limits weights stashes).1, p.2 ≠ stash) ∧
    (∀ q ∈ (board_scores_loop st limits weights stashes).2, q.1 ≠ stash) := by
  induction stashes with
  | nil => simp [board_scores_loop]
  | cons s rest ih =>
    by_cases hbs : (st.validators s).blocked
    · simpa [board_scores_loop, hbs] using ih
    · have hneq : s ≠ stash := by
        intro hcc
        rw [hcc, hb] at hbs
        exact hbs rfl
      simp only [board_scores_loop, hbs, if_false, Bool.false_eq_true]
      constructor
      · intro p hp
        rcases List.mem_cons.mp hp with rfl | hp2
        · exact hneq
        · exact ih.1 p hp2
      · intro q hq
        rcases List.mem_cons.mp hq with rfl | hq2
        · exact hneq
        · exact ih.2 q hq2

theorem board_filtered_loop_excludes (st : HCache) (limits : BoardLimits)
    (weights : List ℕ) (stash : String)
    (hb : (st.validators stash).blocked = true) (stashes : List String) :
    (∀ p ∈ (board_filtered_loop st limits weights stashes).1, p.2 ≠ stash) ∧
    (∀ q ∈ (board_filtered_loop st limits weights stashes).2, q.1 ≠ stash) := by
  induction stashes with
  | nil => simp [board_filtered_loop]
  | cons s rest ih =>
    by_cases hbs : (st.validators s).blocked
    · simpa [board_filtered_loop, hbs] using ih
    · by_cases hex : excluded_by_intervals (st.validators s) limits
      · simpa [board_filtered_loop, hbs, hex] using ih
      · have hneq : s ≠ stash := by
          intro hcc
          rw [hcc, hb] at hbs
          exact hbs rfl
        simp only [board_filtered_loop, hbs, hex, if_false, Bool.false_eq_true]
        constructor
        · intro p hp
          rcases List.mem_cons.mp hp with rfl | hp2
          · exact hneq
          · exact ih.1 p hp2
        · intro q hq
          rcases List.mem_cons.mp hq with rfl | hq2
          · exact hneq
          · exact ih.2 q hq2

theorem addBoard_mem_preserve (st : CacheState) (e : ℕ) (n : String) (s : ℚ)
    (m : String) (e2 : ℕ) (n2 x : String)
    (hx : x ∈ zmembers (st.boards e2 n2)) :
    x ∈ zmembers ((addBoard st e n s m).boards e2 n2) := by
  unfold addBoard
  by_cases h : e2 = e ∧ n2 = n
  · obtain ⟨rfl, rfl⟩ := h
    simp only [if_pos (And.intro rfl rfl)]
    exact mem_zmembers_zadd_of_mem _ s m x hx
  · simpa [h] using hx

theorem addBoard_mem_self (st : CacheState) (e : ℕ) (n : String) (s : ℚ)
    (m : String) : m ∈ zmembers ((addBoard st e n s m).boards e n) := by
  unfold addBoard
  simp only [if_pos (And.intro rfl rfl)]
  exact mem_zmembers_zadd_self _ s m

theorem setValidatorRec_boards (st : CacheState) (stash : String)
    (r : Option StoredValidator) : (setValidatorRec st stash r).boards = st.boards := rfl

theorem validatorsStep_mem_preserve (env : ChainEnv) (fuel ae hd : ℕ)
    (st : CacheState) (p : String × ValidatorPrefs) (e : ℕ) (n x : String)
    (hx : x ∈ zmembers (st.boards e n)) :
    x ∈ zmembers ((validatorsStep env fuel ae hd st p).boards e n) := by
  obtain ⟨stash, prefs⟩ := p
  cases hbond : env.bonded stash with
  | none => simpa [validatorsStep, hbond] using hx
  | some controller =>
    simp only [validatorsStep, hbond]
    apply addBoard_mem_preserve
    apply addBoard_mem_preserve
    apply addBoard_mem_preserve
    rw [setValidatorRec_boards]
    split_ifs with hstake
    · exact addBoard_mem_preserve _ _ _ _ _ _ _ _ hx
    · exact hx

theorem validatorsStep_adds_all (env : ChainEnv) (fuel ae hd : ℕ)
    (st : CacheState) (stash : String) (prefs : ValidatorPrefs)
    (hB : (env.bonded stash).isSome = true) :
    stash ∈ zmembers
      ((validatorsStep env fuel ae hd st (stash, prefs)).boards ae
        BOARD_ALL_VALIDATORS) := by
  obtain ⟨controller, hc⟩ := Option.isSome_iff_exists.mp hB
  simp only [validatorsStep, hc]
  apply addBoard_mem_preserve
  apply addBoard_mem_preserve
  exact addBoard_mem_self _ ae BOARD_ALL_VALIDATORS 0 stash

theorem foldl_validatorsStep_mem_preserve (env : ChainEnv) (fuel ae hd : ℕ)
    (l : List (String × ValidatorPrefs)) (st : CacheState) (e : ℕ) (n x : String)
    (hx : x ∈ zmembers (st.boards e n)) :
    x ∈ zmembers ((l.foldl (validatorsStep env fuel ae hd) st).boards e n) := by
  induction l generalizing st with
  | nil => exact hx
  | cons p t ih =>
    rw [List.foldl_cons]
    exact ih _ (validatorsStep_mem_preserve env fuel ae hd st p e n x hx)

theorem foldl_validatorsStep_mem (env : ChainEnv) (fuel ae hd : ℕ)
    (l : List (String × ValidatorPrefs)) (st : CacheState) (stash : String)
    (prefs : ValidatorPrefs) (hmem : (stash, prefs) ∈ l)
    (hB : (env.bonded stash).isSome = true) :
    stash ∈ zmembers
      ((l.foldl (validatorsStep env fuel ae hd) st).boards ae
        BOARD_ALL_VALIDATORS) := by
  induction l generalizing st with
  | nil => cases hmem
  | cons p t ih =>
    rw [List.foldl_cons]
    rcases List.mem_cons.mp hmem with rfl | hmem2
    · exact foldl_validatorsStep_mem_preserve env fuel ae hd t _ ae
        BOARD_ALL_VALIDATORS stash
        (validatorsStep_adds_all env fuel ae hd st stash prefs hB)
    · exact ih _ hmem2

/-- C6: a stash whose cached `Validator` record is `blocked` receives no
score from either board-generation variant — it appears in none of the `ZADD`
writes to the generated board nor in the `HSET` writes to its `:scores`
sibling — while the validators pass still `ZADD`s every bonded stash,
blocked or not, into `Board(active_era, "all:val")`. -/
theorem blocked_excluded_from_scored_boards (st : HCache) (era_index : ℕ)
    (weights : List ℕ) (intervals : List Interval) (stash : String)
    (hb : (st.validators stash).blocked = true) :
    (∀ out, generate_board_scores st era_index weights = .ok out →
      (∀ p ∈ out.boardWrites, p.2 ≠ stash) ∧ (∀ q ∈ out.scoreWrites, q.1 ≠ stash)) ∧
    (∀ out, generate_board_filtered_by_intervals st era_index weights intervals = .ok out →
      (∀ p ∈ out.boardWrites, p.2 ≠ stash) ∧ (∀ q ∈ out.scoreWrites, q.1 ≠ stash)) ∧
    (∀ (env : ChainEnv) (fuel : ℕ) (sst st2 : CacheState) (ae : ℕ)
      (prefs : ValidatorPrefs),
      env.activeEraInfo = some ae →
      (stash, prefs) ∈ env.validatorsIter →
      (env.bonded stash).isSome = true →
      validators_pass env fuel sst = .ok st2 →
      stash ∈ zmembers (st2.boards ae BOARD_ALL_VALIDATORS)) := by
  refine ⟨?_, ?_, ?_⟩
  · intro out hout
    simp only [generate_board_scores] at hout
    split_ifs at hout with h1 h2 <;>
      first
        | exact Except.noConfusion hout
        | (cases hout;
           exact board_scores_loop_excludes st _ weights stash hb _)
        | (cases hout; exact ⟨by simp, by simp⟩)
  · intro out hout
    simp only [generate_board_filtered_by_intervals] at hout
    split_ifs at hout with h1
    all_goals
      first
        | exact Except.noConfusion hout
        | (cases hout;
           exact board_filtered_loop_excludes st _ weights stash hb _)
  · intro env fuel sst st2 ae prefs hae hmem hB hok
    simp only [validators_pass, hae] at hok
    cases hok
    exact foldl_validatorsStep_mem env fuel ae env.historyDepth
      env.validatorsIter sst stash prefs hmem hB

/-- Witness for C6: in `c6State` the stash "alice" is blocked; the exclusion
and membership conclusions follow at era 7, all-fives weights, no intervals,
and the chain environment `c6Env` that lists the bonded "alice". -/
theorem blocked_excluded_witness :
    (c6State.validators "alice").blocked = true ∧
    ((∀ out, generate_board_scores c6State 7 [5, 5, 5, 5, 5, 5, 5, 5, 5, 5] = .ok out →
      (∀ p ∈ out.boardWrites, p.2 ≠ "alice") ∧ (∀ q ∈ out.scoreWrites, q.1 ≠ "alice")) ∧
    (∀ out, generate_board_filtered_by_intervals c6State 7
        [5, 5, 5, 5, 5, 5, 5, 5, 5, 5] [] = .ok out →
      (∀ p ∈ out.boardWrites, p.2 ≠ "alice") ∧ (∀ q ∈ out.scoreWrites, q.1 ≠ "alice")) ∧
    (∀ (env : ChainEnv) (fuel : ℕ) (sst st2 : CacheState) (ae : ℕ)
      (prefs : ValidatorPrefs),
      env.activeEraInfo = some ae →
      ("alice", prefs) ∈ env.validatorsIter →
      (env.bonded "alice").isSome = true →
      validators_pass env fuel sst = .ok st2 →
      "alice" ∈ zmembers (st2.boards ae BOARD_ALL_VALIDATORS))) :=
  ⟨by decide,
    blocked_excluded_from_scored_boards c6State 7 [5, 5, 5, 5, 5, 5, 5, 5, 5, 5]
      [] "alice" (by decide)⟩

end Turboflakes
